import Mathlib

/-!
Shallow embedding of the log-k-decomp decomposition engine
(src/algorithm.go: LogKDecomp.SetWidth, FindDecomp, baseCaseCheck, baseCase,
findDecomp, attachingSubtrees, plus the CLI argument validation in main).
The engine uses the BalancedGo library for hypergraph primitives, the
negative cache and the search predicates; those are not part of this
repository's sources, so they are modelled from the specification's
descriptions where a claim depends on them.
-/

/-- A vertex is an opaque integer identity. -/
abbrev Vertex := Nat

/-- An edge: an ordered set of vertices with a stable identity
(lib.Edge, modelled from the spec's data model). -/
structure Edge where
  eid : Nat
  vertices : List Vertex
deriving Repr, DecidableEq

/-- An edge set, an ordered sequence of edges (lib.Edges). -/
abbrev Edges := List Edge

/-- A hypergraph: regular edges plus special (virtual) edge sets (lib.Graph). -/
structure Graph where
  edges : Edges
  special : List Edges
deriving Repr, DecidableEq

/-- A decomposition-tree node (lib.Node): bag, cover and children. -/
structure TNode where
  bag : List Vertex
  cover : Edges
  children : List TNode

/-- A decomposition (lib.Decomp): the graph it decomposes and the root node.
The Go code uses the zero value of lib.Decomp as the empty sentinel; the
embedding uses Option Decomp, with none as the sentinel. -/
structure Decomp where
  graph : Graph
  root : TNode

/-- lib.Subset on vertex lists: every element of a occurs in b. -/
def subsetV (a b : List Vertex) : Bool :=
  a.all (fun v => decide (v ∈ b))

/-- lib.Inter on vertex lists: the elements of a that occur in b. -/
def interV (a b : List Vertex) : List Vertex :=
  a.filter (fun v => decide (v ∈ b))

/-- The vertices of an edge set: union of the vertices of its edges. -/
def edgesVertices (E : Edges) : List Vertex :=
  (E.map Edge.vertices).flatten

/-- lib.Graph.Vertices: all vertices of the regular and special edges. -/
def Graph.vertices (H : Graph) : List Vertex :=
  edgesVertices H.edges ++ (H.special.map edgesVertices).flatten

/-- lib.Graph.Len: the number of distinct vertices of the graph. -/
def Graph.len (H : Graph) : Nat :=
  H.vertices.dedup.length

/-- lib.FilterVertices: the edges that have at least one vertex in the
given vertex set. -/
def FilterVertices (E : Edges) (verts : List Vertex) : Edges :=
  E.filter (fun e => e.vertices.any (fun v => decide (v ∈ verts)))

/-- lib.Edges.Diff: the edges of a that do not occur in b. -/
def diffEdges (a b : Edges) : Edges :=
  a.filter (fun e => decide (¬ e ∈ b))

/-- src/algorithm.go baseCaseCheck (lines 53-68): whether a (positive or
negative) base case is reached, for edge count lenE, special count lenSp
and allowed-pool size lenAE, given width K. -/
def baseCaseCheck (K : Int) (lenE lenSp lenAE : Nat) : Bool :=
  (decide ((lenE : Int) ≤ K) && decide (lenSp = 0)) ||
  (decide (lenE = 0) && decide (lenSp = 1)) ||
  (decide (lenE = 0) && decide (1 < lenSp)) ||
  (decide (lenAE = 0) && decide (0 ≤ lenE + lenSp))

/-- src/algorithm.go baseCase (lines 70-94): the failure cases are tested
first (0 edges with more than one special edge; empty allowed pool), then
the two constructive cases.  none models the empty sentinel lib.Decomp{}. -/
def baseCase (K : Int) (H : Graph) (lenAE : Nat) : Option Decomp :=
  if H.edges.length = 0 ∧ 1 < H.special.length then none
  else if lenAE = 0 ∧ 0 ≤ H.len then none
  else if (H.edges.length : Int) ≤ K ∧ H.special.length = 0 then
    some ⟨H, ⟨H.vertices, H.edges, []⟩⟩
  else if H.edges.length = 0 ∧ H.special.length = 1 then
    some ⟨H, ⟨edgesVertices H.special.headI, H.special.headI, []⟩⟩
  else none

/-- How a call of findDecomp proceeds past its entry (src/algorithm.go
lines 114-135): the Conn-invariant panic, a base-case return, or entry
into the recursive child search. -/
inductive FDPhase
  | panicConn
  | base (d : Option Decomp)
  | search

/-- The entry of src/algorithm.go findDecomp (lines 114-127): panic when
Conn is not a subset of Vertices(H); otherwise return the base case when
baseCaseCheck holds; otherwise proceed into the recursive search. -/
def findDecompPhase (K : Int) (H : Graph) (Conn : List Vertex) (lenAE : Nat) : FDPhase :=
  if ¬ subsetV Conn H.vertices then .panicConn
  else if baseCaseCheck K H.edges.length H.special.length lenAE then
    .base (baseCase K H lenAE)
  else .search

/-- The engine state (LogKDecomp struct): graph, width, negative cache and
balance factor.  The cache is modelled from the spec as an optional entry
list: none is the unallocated (nil) map. -/
structure LogKState where
  graph : Graph
  K : Int
  cache : Option (List (Edges × Graph))
  balFactor : Nat
deriving Repr, DecidableEq

/-- src/algorithm.go FindDecomp (lines 41-44): runs findDecomp on the bound
graph with empty connector and the graph's own edges as allowed pool; this
is its entry phase.  No width or graph validation happens here. -/
def FindDecompPhase (s : LogKState) : FDPhase :=
  findDecompPhase s.K s.graph [] s.graph.edges.length

/-- Modelled from the spec: lib.Cache.Reset empties the map
("reset() empties the map and is called whenever K changes"). -/
def cacheReset (_c : Option (List (Edges × Graph))) : Option (List (Edges × Graph)) :=
  some []

/-- Modelled from the spec: lib.Cache.Init allocates the map only when it
is absent, and otherwise leaves the entries in place ("Cache entries live
for the lifetime of one SetWidth(K) epoch"). -/
def cacheInit (c : Option (List (Edges × Graph))) : Option (List (Edges × Graph)) :=
  match c with
  | none => some []
  | some l => some l

/-- Modelled from the spec: lib.Cache.AddNegative inserts a
(cover, component) pair. -/
def cacheAddNegative (k : Edges × Graph) (c : Option (List (Edges × Graph))) :
    Option (List (Edges × Graph)) :=
  match c with
  | none => none
  | some l => some (k :: l)

/-- Modelled from the spec: membership of one (cover, component) key. -/
def cacheCheckKey (k : Edges × Graph) (c : Option (List (Edges × Graph))) : Bool :=
  match c with
  | none => false
  | some l => decide (k ∈ l)

/-- src/algorithm.go SetWidth (lines 29-33): reset the cache, then set K. -/
def SetWidth (s : LogKState) (K : Int) : LogKState :=
  { s with cache := cacheReset s.cache, K := K }

/-- src/algorithm.go FindDecomp line 42: the only cache operation FindDecomp
performs is Init. -/
def FindDecompCacheStep (s : LogKState) : LogKState :=
  { s with cache := cacheInit s.cache }

/-- The CLI front-end's argument validation (src main, line 557): the run is
rejected (usage message, no solver constructed) when flag parsing failed,
no graph file was given, or the width is not positive while neither exact
nor approx mode is selected.  graphMissing models graphPath == "". -/
def cliAccepts (parseErr graphMissing : Bool) (width : Int) (exact : Bool) (approx : Int) : Bool :=
  !(parseErr || graphMissing || (decide (width ≤ 0) && !exact && decide (approx = 0)))

/-- An item during component computation: a regular edge or one special
edge set of the hypergraph. -/
inductive CItem
  | reg (e : Edge)
  | sp (es : Edges)
deriving Repr, DecidableEq

/-- The vertices of a component item. -/
def CItem.verts : CItem → List Vertex
  | .reg e => e.vertices
  | .sp es => edgesVertices es

/-- The vertices of an item that survive removal of the separator. -/
def CItem.active (sep : List Vertex) (it : CItem) : List Vertex :=
  it.verts.filter (fun v => decide (¬ v ∈ sep))

/-- Whether two active vertex lists share a vertex. -/
def touches (a b : List Vertex) : Bool :=
  a.any (fun v => decide (v ∈ b))

/-- Grow one connected component from the current items, with fuel. -/
def growComp (sep : List Vertex) : Nat → List CItem → List Vertex → List CItem →
    List CItem × List CItem
  | 0, cur, _, rest => (cur, rest)
  | fuel + 1, cur, curV, rest =>
    let hit := rest.filter (fun it => touches (it.active sep) curV)
    if hit.isEmpty then (cur, rest)
    else
      growComp sep fuel (cur ++ hit) (curV ++ (hit.map (CItem.active sep)).flatten)
        (rest.filter (fun it => !(touches (it.active sep) curV)))

/-- Split items into connected components wrt the separator, with fuel. -/
def splitComps (sep : List Vertex) : Nat → List CItem → List (List CItem)
  | 0, _ => []
  | _ + 1, [] => []
  | fuel + 1, it :: rest =>
    let res := growComp sep (rest.length + 1) [it] (it.active sep) rest
    res.1 :: splitComps sep fuel res.2

/-- Reassemble a component's items into a sub-hypergraph. -/
def itemsToGraph (items : List CItem) : Graph :=
  ⟨items.filterMap (fun it => match it with | .reg e => some e | .sp _ => none),
   items.filterMap (fun it => match it with | .sp es => some es | .reg _ => none)⟩

/-- Modelled from the spec: lib.Graph.GetComponents — "the connected
subhypergraphs of H after removing the vertices of λ, plus the list of
edges wholly contained in λ (isolated edges)"; components keep their full
original edges.  Returns (components, isolated edges); the middle result
of the Go function is unused by findDecomp. -/
def getComponents (H : Graph) (sepEdges : Edges) : List Graph × Edges :=
  let sep := edgesVertices sepEdges
  let isolated :=
    H.edges.filter (fun e => (e.vertices.filter (fun v => decide (¬ v ∈ sep))).isEmpty)
  let live : List CItem :=
    (H.edges.filter
        (fun e => !((e.vertices.filter (fun v => decide (¬ v ∈ sep))).isEmpty))).map CItem.reg
      ++ H.special.map CItem.sp
  ((splitComps sep live.length live).map itemsToGraph, isolated)

/-- src/algorithm.go line 204: the integer-floor balance threshold
(Len(H) * (BalFactor - 1)) / BalFactor. -/
def balancednessLimit (balFactor : Nat) (H : Graph) : Nat :=
  (H.len * (balFactor - 1)) / balFactor

/-- Modelled from the spec: lib.BalancedCheckFast — a child cover is
balanced when no component of H minus the cover is oversized, where
oversized means Len strictly above the balancedness limit, matching the
oversized test findDecomp itself applies (src/algorithm.go lines 204-213)
and the spec's glossary ("no component larger than Len(H)·(β−1)/β"). -/
def balancedCheck (balFactor : Nat) (H : Graph) (lam : Edges) : Bool :=
  (getComponents H lam).1.all (fun c => decide (c.len ≤ balancednessLimit balFactor H))

/-- Modelled from the spec: lib.ParentCheck — "accepts cover λ iff
Conn ⊆ vertices(λ) AND λ's removal yields exactly one component that
contains all child_vertices". -/
def parentCheckSpec (H : Graph) (lam : Edges) (Conn childVerts : List Vertex) : Bool :=
  subsetV Conn (edgesVertices lam) &&
    decide
      (((getComponents H lam).1.filter
          (fun c => subsetV childVerts c.vertices)).length = 1)

/-- src/algorithm.go lines 207-213: the loop over the parent's components
keeping the last component whose Len exceeds the balancedness limit,
together with its index. -/
def findLowAux (limit : Nat) : List Graph → Nat → Option (Nat × Graph)
  | [], _ => none
  | c :: rest, i =>
    match findLowAux limit rest (i + 1) with
    | some r => some r
    | none => if limit < c.len then some (i, c) else none

/-- The outcome of the low-component search (src/algorithm.go lines
200-232): either the panic branch (foundLow stayed false) or the index
and value of the chosen low component. -/
inductive LowStep
  | panicNoLow
  | proceed (idx : Nat) (compLow : Graph)
deriving Repr, DecidableEq

/-- src/algorithm.go lines 200-232 as a function: panic when no component
of H minus the parent cover is oversized, otherwise proceed with the last
oversized component. -/
def lowStep (compsP : List Graph) (limit : Nat) : LowStep :=
  match findLowAux limit compsP 0 with
  | none => .panicNoLow
  | some (i, c) => .proceed i c

/-- src/algorithm.go lines 266-275: the isolated edges plus all edges of
the non-low parent components. -/
def tempEdgeSlice (compsP : List Graph) (isolated : Edges) (lowIdx : Nat) : Edges :=
  isolated ++
    ((compsP.enum.filter (fun p => decide (p.1 ≠ lowIdx))).map (fun p => p.2.edges)).flatten

/-- src/algorithm.go lines 266-275: the special edges of all non-low
parent components. -/
def tempSpecialSlice (compsP : List Graph) (lowIdx : Nat) : List Edges :=
  ((compsP.enum.filter (fun p => decide (p.1 ≠ lowIdx))).map (fun p => p.2.special)).flatten

/-- One recursive call descriptor: the subgraph, the connector and the
allowed-edge pool passed to findDecomp. -/
structure RecCall where
  graph : Graph
  conn : List Vertex
  pool : Edges
deriving Repr, DecidableEq

/-- src/algorithm.go lines 315-328: the lower-component recursive calls;
each component of comp_low minus the child cover is decomposed with
connector Inter(vertices(component), childχ) and the unchanged full
allowed pool. -/
def lowerTasks (compsE : List Graph) (childChi : List Vertex) (allowedFull : Edges) :
    List RecCall :=
  compsE.map (fun c => ⟨c, interV c.vertices childChi, allowedFull⟩)

/-- src/algorithm.go line 278: the new special edge connecting the child
to comp_up, NewEdges([]Edge{{Vertices: childχ}}). -/
def specialChildEdges (childChi : List Vertex) : Edges :=
  [⟨0, childChi⟩]

/-- src/algorithm.go lines 261-311: what is sent on chUp for one parent
candidate.  Sum.inl: the directly synthesized two-node decomposition when
the parent leaves a single component; Sum.inr: the recursive upper call
(with the reduced pool) when there are other components with at least one
edge; none: no goroutine sends on chUp at all. -/
def upperBranch (VerticesH Conn : List Vertex) (allowedFull parentLam : Edges)
    (compsP : List Graph) (isolated : Edges) (lowIdx : Nat) (compLow : Graph)
    (childLam : Edges) (childChi : List Vertex) : Option (Decomp ⊕ RecCall) :=
  let tes := tempEdgeSlice compsP isolated lowIdx
  let tss := tempSpecialSlice compsP lowIdx
  let specialChild := specialChildEdges childChi
  if compsP.length = 1 then
    some (Sum.inl ⟨⟨parentLam, [specialChild]⟩,
      ⟨interV (edgesVertices parentLam) VerticesH, parentLam,
        [⟨edgesVertices specialChild, childLam, []⟩]⟩⟩)
  else if 0 < tes.length then
    some (Sum.inr ⟨⟨tes, tss ++ [specialChild]⟩, Conn, diffEdges allowedFull compLow.edges⟩)
  else none

/-- The number of goroutines that will send on chUp for one parent
candidate (src/algorithm.go lines 281-311). -/
def upSends (compsP : List Graph) (tes : Edges) : Nat :=
  if compsP.length = 1 then 1 else if 0 < tes.length then 1 else 0

/-- The total number of channel sends the spawned goroutines of one parent
candidate will perform: one per lower component plus the chUp send. -/
def totalSends (compsP : List Graph) (tes : Edges) (compsE : List Graph) : Nat :=
  upSends compsP tes + compsE.length

/-- The number of results the wait loop expects,
len(compsε) + 1 (src/algorithm.go line 333). -/
def awaitedResults (compsE : List Graph) : Nat :=
  compsE.length + 1

/-- A message received by the wait loop: a lower-component result on ch or
the upper result on chUp; none is the empty sentinel. -/
inductive WaitMsg
  | low (d : Option Decomp)
  | up (d : Option Decomp)

/-- The outcome of the wait loop: all awaited results received; or
continue PARENT on the first empty result, with the number of results
received up to that point; or the Conn-coverage panic on the upper
result; or starved: the loop still awaits a result but no spawned sender
remains, so the select blocks forever. -/
inductive WaitOutcome
  | completed (received : Nat)
  | rejected (received : Nat)
  | panicConnUp (received : Nat)
  | starved (received : Nat)
deriving Repr, DecidableEq

/-- src/algorithm.go lines 333-383: the wait loop, iterating awaited-many
times over the schedule of arriving results.  An empty lower or upper
result makes it continue PARENT at once; a non-empty upper result whose
root bag does not cover Conn panics; otherwise it keeps receiving. -/
def waitLoop (Conn : List Vertex) : Nat → List WaitMsg → Nat → WaitOutcome
  | 0, _, r => .completed r
  | _ + 1, [], r => .starved r
  | n + 1, m :: rest, r =>
    match m with
    | .low none => .rejected (r + 1)
    | .low (some _) => waitLoop Conn n rest (r + 1)
    | .up none => .rejected (r + 1)
    | .up (some d) =>
      if ¬ subsetV Conn d.root.bag then .panicConnUp (r + 1)
      else waitLoop Conn n rest (r + 1)

/-- src/algorithm.go lines 389-399: the post-processing of a successful
parent candidate.  When tempEdgeSlice is non-empty the upper root and the
child root are attached (attachingSubtrees, whose lib.CombineNodes core is
kept abstract here); otherwise the child node alone becomes the root. -/
def framePost (attach : TNode → TNode → Edges → TNode) (H : Graph)
    (childChi : List Vertex) (childLam : Edges) (subtrees : List TNode)
    (decompUpRoot : TNode) (specialChild tes : Edges) : Decomp :=
  if 0 < tes.length then ⟨H, attach decompUpRoot ⟨childChi, childLam, subtrees⟩ specialChild⟩
  else ⟨H, ⟨childChi, childLam, subtrees⟩⟩

/-- The outcome of the root-as-child branch (src/algorithm.go lines
150-183): return a decomposition; skip the child on a negative-cache hit;
or reject the child (cache the failing component and continue CHILD). -/
inductive ChildOutcome
  | ret (d : Decomp)
  | cacheSkip
  | reject (childLam : Edges) (failedComp : Graph)

/-- src/algorithm.go lines 162-179: the sequential recursion over the
child components, stopping at the first component whose recursive
decomposition is empty. -/
def collectSubtrees (recCall : Graph → List Vertex → Edges → Option Decomp)
    (allowedFull : Edges) (childChi : List Vertex) : List Graph → Except Graph (List TNode)
  | [] => .ok []
  | c :: rest =>
    match recCall c (interV c.vertices childChi) allowedFull with
    | none => .error c
    | some d =>
      match collectSubtrees recCall allowedFull childChi rest with
      | .error c2 => .error c2
      | .ok ns => .ok (d.root :: ns)

/-- src/algorithm.go lines 150-183: the root-as-child branch, entered when
Conn ⊆ vertices(childλ).  recCall stands for the recursive findDecomp
call; the branch passes each component with connector
Inter(vertices(component), Inter(vertices(childλ), vertices(H))) and the
unchanged full pool, and on success returns the node with bag
Inter(vertices(childλ), vertices(H)), cover childλ and the recursive
roots as children. -/
def rootAsChild (recCall : Graph → List Vertex → Edges → Option Decomp)
    (H : Graph) (allowedFull childLam : Edges) (compsE : List Graph)
    (cacheHit : Bool) : ChildOutcome :=
  let childChi := interV (edgesVertices childLam) H.vertices
  if cacheHit then .cacheSkip
  else
    match collectSubtrees recCall allowedFull childChi compsE with
    | .error c => .reject childLam c
    | .ok subtrees => .ret ⟨H, ⟨childChi, childLam, subtrees⟩⟩

/-- The empty hypergraph. -/
def emptyHG : Graph := ⟨[], []⟩

/-- Engine state bound to the empty graph with K = 0; FindDecomp passes
the empty edge list of the graph as the allowed pool. -/
def s0 : LogKState := ⟨emptyHG, 0, none, 2⟩

/-- Engine state with one binary edge and width K = 0 (caller misuse). -/
def s9 : LogKState := ⟨⟨[⟨1, [1, 2]⟩], []⟩, 0, none, 2⟩

/-- A recursive-call stand-in that always succeeds with the base-case
shaped decomposition of its argument. -/
def recAlways : Graph → List Vertex → Edges → Option Decomp :=
  fun g _ _ => some ⟨g, ⟨g.vertices, g.edges, []⟩⟩

/-- The decompositions recAlways returns. -/
def dsAlways : Graph → Decomp :=
  fun g => ⟨g, ⟨g.vertices, g.edges, []⟩⟩

/-- An arbitrary non-empty decomposition used in wait-loop schedules. -/
def dArb : Decomp := ⟨emptyHG, ⟨[], [], []⟩⟩

/-- Concrete edges for the degenerate-return scenario: a path edge, one
big middle edge, a tail edge, and a pool-only parent edge on vertex 1. -/
def a2 : Edge := ⟨31, [1, 2]⟩

/-- The big middle edge of the degenerate-return scenario. -/
def m2 : Edge := ⟨32, [2, 3, 4, 5, 6, 7, 8]⟩

/-- The tail edge of the degenerate-return scenario. -/
def z2 : Edge := ⟨33, [8, 9]⟩

/-- The pool-only parent edge covering exactly the connector vertex 1. -/
def p2 : Edge := ⟨34, [1]⟩

/-- The subgraph of the degenerate-return scenario. -/
def H2 : Graph := ⟨[a2, m2, z2], []⟩

/-- The allowed pool of the degenerate-return scenario: the subgraph
edges plus the parent edge from the enclosing graph. -/
def pool2 : Edges := [a2, m2, z2, p2]

/-- The single component of H2 minus the parent cover. -/
def compLow2 : Graph := ⟨[a2, m2, z2], []⟩

/-- childχ of the degenerate-return scenario:
Inter(vertices(childλ), vertices(comp_low)). -/
def childChi2 : List Vertex := interV (edgesVertices [m2]) compLow2.vertices

/-- The successful lower decomposition of the a2-component. -/
def dA2 : Decomp := ⟨⟨[a2], []⟩, ⟨[1, 2], [a2], []⟩⟩

/-- The successful lower decomposition of the z2-component. -/
def dZ2 : Decomp := ⟨⟨[z2], []⟩, ⟨[8, 9], [z2], []⟩⟩

/-- The synthesized upper decomposition of the degenerate-return
scenario (src/algorithm.go lines 281-292). -/
def upD2 : Decomp :=
  ⟨⟨[p2], [specialChildEdges childChi2]⟩,
   ⟨interV (edgesVertices [p2]) H2.vertices, [p2],
    [⟨edgesVertices (specialChildEdges childChi2), [m2], []⟩]⟩⟩

/-- Concrete edges of the starving-wait scenario. -/
def b5 : Edge := ⟨21, [2, 3]⟩

/-- The child cover edge of the starving-wait scenario. -/
def c5e : Edge := ⟨22, [3, 4]⟩

/-- The disconnected special edge of the starving-wait scenario. -/
def s5 : Edge := ⟨23, [9]⟩

/-- The subgraph of the starving-wait scenario: two chained regular edges
plus one disconnected special edge set. -/
def H5 : Graph := ⟨[b5, c5e], [[s5]]⟩

/-- The pool-only parent edge of the starving-wait scenario. -/
def p5 : Edge := ⟨24, [2]⟩

/-- The allowed pool of the starving-wait scenario. -/
def pool5 : Edges := [b5, c5e, p5]

/-- The low component of H5 minus the parent cover. -/
def compLow5 : Graph := ⟨[b5, c5e], []⟩

/-- The special-only second component of H5 minus the parent cover. -/
def compSp5 : Graph := ⟨[], [[s5]]⟩

/-- The components of comp_low minus the child cover. -/
def compsE5 : List Graph := (getComponents compLow5 [c5e]).1

/-- The successful lower decomposition of the starving-wait scenario. -/
def lowD5 : Decomp := ⟨⟨[b5], []⟩, ⟨[2, 3], [b5], []⟩⟩

/-- Four pairwise disconnected edges (ParentCheck counterexample). -/
def e61 : Edge := ⟨1, [1, 2]⟩

/-- Second disconnected edge. -/
def e62 : Edge := ⟨2, [3, 4]⟩

/-- Third disconnected edge. -/
def e63 : Edge := ⟨3, [5, 6]⟩

/-- Fourth disconnected edge. -/
def e64 : Edge := ⟨4, [7, 8]⟩

/-- The hypergraph of four pairwise disconnected edges. -/
def H6 : Graph := ⟨[e61, e62, e63, e64], []⟩

/-- The pool-only parent edge covering the connector vertex 1. -/
def p6 : Edge := ⟨9, [1]⟩

/-- The upper recursive call of the c4 witness frame. -/
def upW : RecCall :=
  ⟨⟨[e62], [specialChildEdges [3]]⟩, [1], diffEdges [e61, e62] [e61]⟩

/-- Helper: the sequential child-component recursion succeeds with the
mapped roots when every recursive call succeeds. -/
theorem collectSubtrees_ok (recCall : Graph → List Vertex → Edges → Option Decomp)
    (allowedFull : Edges) (childChi : List Vertex) (compsE : List Graph)
    (ds : Graph → Decomp)
    (h : ∀ c ∈ compsE, recCall c (interV c.vertices childChi) allowedFull = some (ds c)) :
    collectSubtrees recCall allowedFull childChi compsE =
      Except.ok (compsE.map fun c => (ds c).root) := by
  induction compsE with
  | nil => rfl
  | cons c rest ih =>
    have hc := h c (List.mem_cons_self c rest)
    have hr := ih (fun x hx => h x (List.mem_cons_of_mem c hx))
    simp [collectSubtrees, hc, hr]

/-- Helper: the sequential child-component recursion stops with the first
failing component. -/
theorem collectSubtrees_error (recCall : Graph → List Vertex → Edges → Option Decomp)
    (allowedFull : Edges) (childChi : List Vertex) (pre : List Graph) (c : Graph)
    (post : List Graph)
    (hpre : ∀ x ∈ pre, ∃ d, recCall x (interV x.vertices childChi) allowedFull = some d)
    (hc : recCall c (interV c.vertices childChi) allowedFull = none) :
    collectSubtrees recCall allowedFull childChi (pre ++ c :: post) = Except.error c := by
  induction pre with
  | nil => simp [collectSubtrees, hc]
  | cons x xs ih =>
    obtain ⟨d, hd⟩ := hpre x (List.mem_cons_self x xs)
    have hrest := ih (fun y hy => hpre y (List.mem_cons_of_mem x hy))
    simp [collectSubtrees, hd, hrest]

/-- C3: in the root-as-child branch (Conn inside the child cover, no
negative-cache hit), every component is decomposed with connector
Inter(vertices(component), Inter(vertices(childλ), vertices(H))) and the
unchanged full pool; full success returns the node with bag
Inter(vertices(childλ), vertices(H)), cover childλ and the recursive
roots as children, and any failure abandons the child and continues
the enumeration. -/
theorem c3_root_as_child (recCall : Graph → List Vertex → Edges → Option Decomp)
    (H : Graph) (Conn : List Vertex) (allowedFull childLam : Edges)
    (compsE : List Graph) (ds : Graph → Decomp)
    (_hconn : subsetV Conn (edgesVertices childLam) = true) :
    ((∀ c ∈ compsE,
        recCall c (interV c.vertices (interV (edgesVertices childLam) H.vertices)) allowedFull
          = some (ds c)) →
      rootAsChild recCall H allowedFull childLam compsE false =
        ChildOutcome.ret ⟨H, ⟨interV (edgesVertices childLam) H.vertices, childLam,
          compsE.map (fun c => (ds c).root)⟩⟩) ∧
    (∀ (pre : List Graph) (c : Graph) (post : List Graph),
      compsE = pre ++ c :: post →
      (∀ c2 ∈ pre,
        recCall c2 (interV c2.vertices (interV (edgesVertices childLam) H.vertices)) allowedFull
          = some (ds c2)) →
      recCall c (interV c.vertices (interV (edgesVertices childLam) H.vertices)) allowedFull
        = none →
      rootAsChild recCall H allowedFull childLam compsE false =
        ChildOutcome.reject childLam c) := by
  constructor
  · intro hall
    have hck := collectSubtrees_ok recCall allowedFull
      (interV (edgesVertices childLam) H.vertices) compsE ds hall
    unfold rootAsChild
    simp only [Bool.false_eq_true, if_false, hck]
  · intro pre c post hsplit hpre hc
    subst hsplit
    have hck := collectSubtrees_error recCall allowedFull
      (interV (edgesVertices childLam) H.vertices) pre c post
      (fun x hx => ⟨ds x, hpre x hx⟩) hc
    unfold rootAsChild
    simp only [Bool.false_eq_true, if_false, hck]

/-- Witness for c3_root_as_child: a concrete frame in which the single
component succeeds, yielding the stated node. -/
theorem c3_root_as_child_witness :
    rootAsChild recAlways ⟨[e61], []⟩ pool2 [e61] [⟨[e62], []⟩] false =
      ChildOutcome.ret ⟨⟨[e61], []⟩,
        ⟨interV (edgesVertices [e61]) (Graph.vertices ⟨[e61], []⟩), [e61],
         [⟨[3, 4], [e62], []⟩]⟩⟩ :=
  (c3_root_as_child recAlways ⟨[e61], []⟩ [1] pool2 [e61] [⟨[e62], []⟩] dsAlways rfl).1
    (fun _ _ => rfl)

/-- C4: in the parent-search branch only the upper-component recursive
call reduces the allowed pool, to allowed_full minus the edges of
comp_low, keeping the same Conn; every lower-component call keeps the
unchanged allowed_full with connector Inter(vertices(component), childχ). -/
theorem c4_pool_reduction (VerticesH Conn : List Vertex) (allowedFull parentLam : Edges)
    (compsP : List Graph) (isolated : Edges) (lowIdx : Nat) (compLow : Graph)
    (childLam : Edges) (childChi : List Vertex) (compsE : List Graph) :
    (∀ up : RecCall,
      upperBranch VerticesH Conn allowedFull parentLam compsP isolated lowIdx compLow
          childLam childChi = some (Sum.inr up) →
      up.conn = Conn ∧ up.pool = diffEdges allowedFull compLow.edges) ∧
    (∀ call ∈ lowerTasks compsE childChi allowedFull,
      call.pool = allowedFull ∧ call.conn = interV call.graph.vertices childChi) := by
  constructor
  · intro up h
    unfold upperBranch at h
    by_cases h1 : compsP.length = 1
    · simp [h1] at h
    · by_cases h2 : 0 < (tempEdgeSlice compsP isolated lowIdx).length
      · simp only [h1, if_false, h2, if_true, Option.some.injEq, Sum.inr.injEq] at h
        rw [← h]
        exact ⟨rfl, rfl⟩
      · simp [h1, h2] at h
  · intro call hcall
    simp only [lowerTasks, List.mem_map] at hcall
    obtain ⟨c, _, rfl⟩ := hcall
    exact ⟨rfl, rfl⟩

/-- Witness for c4_pool_reduction at a concrete two-component parent
frame with a non-empty tempEdgeSlice. -/
theorem c4_pool_reduction_witness :
    (upW.conn = [1] ∧ upW.pool = diffEdges [e61, e62] [e61]) ∧
    (RecCall.pool ⟨⟨[e62], []⟩, interV (Graph.vertices ⟨[e62], []⟩) [3], [e61, e62]⟩
        = [e61, e62] ∧
      RecCall.conn ⟨⟨[e62], []⟩, interV (Graph.vertices ⟨[e62], []⟩) [3], [e61, e62]⟩
        = interV (Graph.vertices ⟨[e62], []⟩) [3]) :=
  ⟨(c4_pool_reduction [1, 2, 3, 4] [1] [e61, e62] [p6] [⟨[e61], []⟩, ⟨[e62], []⟩] [] 0
      ⟨[e61], []⟩ [e62] [3] [⟨[e62], []⟩]).1 upW rfl,
   (c4_pool_reduction [1, 2, 3, 4] [1] [e61, e62] [p6] [⟨[e61], []⟩, ⟨[e62], []⟩] [] 0
      ⟨[e61], []⟩ [e62] [3] [⟨[e62], []⟩]).2
     ⟨⟨[e62], []⟩, interV (Graph.vertices ⟨[e62], []⟩) [3], [e61, e62]⟩ (by decide)⟩

/-- C1 (counterexample): on the empty graph (0 edges, 0 special) with
K = 0 and the empty allowed pool that FindDecomp passes, the engine
returns the empty sentinel, not a single-node decomposition: the
pool-exhaustion failure case of baseCase fires before base case 1. -/
theorem c1_empty_pool_beats_case1 :
    FindDecompPhase s0 = FDPhase.base none ∧
    FDPhase.base none ≠
      FDPhase.base (some ⟨emptyHG, ⟨emptyHG.vertices, emptyHG.edges, []⟩⟩) := by
  refine ⟨rfl, fun h => ?_⟩
  simp at h

/-- C1 (amended): with a non-empty allowed pool, a call with
edges(H) of size at most K and no special edges returns the single-node
decomposition with bag vertices(H) and cover edges(H); with an empty
pool the failure case of baseCase fires first and the very same call
returns the empty sentinel. -/
theorem c1_base_case_order (K : Int) (H : Graph) (Conn : List Vertex) (lenAE : Nat)
    (hconn : subsetV Conn H.vertices = true)
    (hE : (H.edges.length : Int) ≤ K) (hsp : H.special = []) :
    (0 < lenAE → findDecompPhase K H Conn lenAE =
        FDPhase.base (some ⟨H, ⟨H.vertices, H.edges, []⟩⟩)) ∧
    (lenAE = 0 → findDecompPhase K H Conn lenAE = FDPhase.base none) := by
  have hcheck : baseCaseCheck K H.edges.length 0 lenAE = true := by
    simp [baseCaseCheck, hE]
  constructor
  · intro hAE
    have hAE2 : ¬ lenAE = 0 := by omega
    simp [findDecompPhase, hconn, hcheck, baseCase, hsp, hE, hAE2]
  · intro hAE
    subst hAE
    simp [findDecompPhase, hconn, hcheck, baseCase, hsp]

/-- Witness for c1_base_case_order: a one-edge graph with K = 1 and a
pool of size 1 returns the single-node decomposition. -/
theorem c1_base_case_order_witness :
    (0 < 1 → findDecompPhase 1 ⟨[⟨1, [1, 2]⟩], []⟩ [] 1 =
        FDPhase.base (some ⟨⟨[⟨1, [1, 2]⟩], []⟩,
          ⟨Graph.vertices ⟨[⟨1, [1, 2]⟩], []⟩, [⟨1, [1, 2]⟩], []⟩⟩)) ∧
    ((1 : Nat) = 0 → findDecompPhase 1 ⟨[⟨1, [1, 2]⟩], []⟩ [] 1 = FDPhase.base none) :=
  c1_base_case_order 1 ⟨[⟨1, [1, 2]⟩], []⟩ [] 1 rfl (by decide) rfl

/-- C2 (code evaluation at the failing input): a fully concrete parent
frame in which the parent cover leaves a single component and no isolated
edges.  The child cover is balanced, does not cover Conn, the parent
passes ParentCheck, both lower components decompose successfully and the
synthesized upper decomposition covers Conn, yet the post-processing
discards the upper root (tempEdgeSlice is empty) and returns the child
node alone, whose bag does not contain Conn. -/
theorem c2_degenerate_drops_conn :
    subsetV [1] H2.vertices = true ∧
    findDecompPhase 1 H2 [1] pool2.length = FDPhase.search ∧
    balancedCheck 2 H2 [m2] = true ∧
    subsetV [1] (edgesVertices [m2]) = false ∧
    parentCheckSpec H2 [p2] [1] (edgesVertices [m2]) = true ∧
    getComponents H2 [p2] = ([compLow2], []) ∧
    lowStep [compLow2] (balancednessLimit 2 H2) = LowStep.proceed 0 compLow2 ∧
    (getComponents compLow2 [m2]).1 = [⟨[a2], []⟩, ⟨[z2], []⟩] ∧
    findDecompPhase 1 ⟨[a2], []⟩ (interV (Graph.vertices ⟨[a2], []⟩) childChi2)
      pool2.length = FDPhase.base (some dA2) ∧
    findDecompPhase 1 ⟨[z2], []⟩ (interV (Graph.vertices ⟨[z2], []⟩) childChi2)
      pool2.length = FDPhase.base (some dZ2) ∧
    upperBranch H2.vertices [1] pool2 [p2] [compLow2] [] 0 compLow2 [m2] childChi2
      = some (Sum.inl upD2) ∧
    subsetV [1] upD2.root.bag = true ∧
    waitLoop [1] (awaitedResults [⟨[a2], []⟩, ⟨[z2], []⟩])
      [WaitMsg.low (some dA2), WaitMsg.low (some dZ2), WaitMsg.up (some upD2)] 0
      = WaitOutcome.completed 3 ∧
    tempEdgeSlice [compLow2] [] 0 = [] ∧
    (∀ attach, framePost attach H2 childChi2 [m2] [dA2.root, dZ2.root] upD2.root
        (specialChildEdges childChi2) (tempEdgeSlice [compLow2] [] 0)
      = ⟨H2, ⟨childChi2, [m2], [dA2.root, dZ2.root]⟩⟩) ∧
    subsetV [1] childChi2 = false := by
  refine ⟨rfl, rfl, rfl, rfl, rfl, rfl, rfl, rfl, rfl, rfl, rfl, rfl, rfl, rfl,
    fun attach => rfl, rfl⟩

/-- C5 (code evaluation at the failing input): a fully concrete parent
frame in which H minus the parent cover has two components, but the
second one carries only a special edge.  tempEdgeSlice is empty while
there is more than one parent component, so no goroutine sends on chUp;
the spawned tasks send once in total while the wait loop expects two
results, and after receiving the one successful lower result the loop
starves: findDecomp never returns. -/
theorem c5_wait_starves :
    findDecompPhase 2 H5 [2] pool5.length = FDPhase.search ∧
    balancedCheck 2 H5 [c5e] = true ∧
    subsetV [2] (edgesVertices [c5e]) = false ∧
    parentCheckSpec H5 [p5] [2] (edgesVertices [c5e]) = true ∧
    getComponents H5 [p5] = ([compLow5, compSp5], []) ∧
    lowStep [compLow5, compSp5] (balancednessLimit 2 H5) = LowStep.proceed 0 compLow5 ∧
    tempEdgeSlice [compLow5, compSp5] [] 0 = [] ∧
    compsE5 = [⟨[b5], []⟩] ∧
    upperBranch H5.vertices [2] pool5 [p5] [compLow5, compSp5] [] 0 compLow5 [c5e]
      (interV (edgesVertices [c5e]) compLow5.vertices) = none ∧
    findDecompPhase 2 ⟨[b5], []⟩
      (interV (Graph.vertices ⟨[b5], []⟩) (interV (edgesVertices [c5e]) compLow5.vertices))
      pool5.length = FDPhase.base (some lowD5) ∧
    totalSends [compLow5, compSp5] (tempEdgeSlice [compLow5, compSp5] [] 0) compsE5 = 1 ∧
    awaitedResults compsE5 = 2 ∧
    waitLoop [2] (awaitedResults compsE5) [WaitMsg.low (some lowD5)] 0
      = WaitOutcome.starved 1 := by
  refine ⟨rfl, rfl, rfl, rfl, rfl, rfl, rfl, rfl, rfl, rfl, rfl, rfl, rfl⟩

/-- Helper: the low-component loop returns none exactly when no component
exceeds the limit. -/
theorem findLowAux_none (limit : Nat) (l : List Graph) (i : Nat) :
    findLowAux limit l i = none ↔ ∀ c ∈ l, c.len ≤ limit := by
  induction l generalizing i with
  | nil => simp [findLowAux]
  | cons c rest ih =>
    simp only [findLowAux]
    cases h : findLowAux limit rest (i + 1) with
    | some r =>
      simp only [h]
      constructor
      · intro hx; cases hx
      · intro hall
        have hnone : findLowAux limit rest (i + 1) = none :=
          (ih (i + 1)).mpr (fun x hx => hall x (List.mem_cons_of_mem c hx))
        rw [h] at hnone; cases hnone
    | none =>
      have hrest := (ih (i + 1)).mp h
      by_cases hc : limit < c.len
      · rw [if_pos hc]
        constructor
        · intro hx; cases hx
        · intro hall
          exact absurd (hall c (List.mem_cons_self c rest)) (by omega)
      · rw [if_neg hc]
        constructor
        · intro _ x hx
          rcases List.mem_cons.mp hx with rfl | hx2
          · omega
          · exact hrest x hx2
        · intro _; rfl

/-- C6 (amended): the low-component search of the parent branch reaches
the panic branch exactly when no component of H minus the parent cover
exceeds the balancedness limit; in that case findDecomp aborts rather
than returning any sentinel. -/
theorem c6_low_abort (compsP : List Graph) (limit : Nat) :
    lowStep compsP limit = LowStep.panicNoLow ↔ ∀ c ∈ compsP, c.len ≤ limit := by
  rw [← findLowAux_none limit compsP 0]
  unfold lowStep
  cases h : findLowAux limit compsP 0 with
  | none => simp
  | some r =>
    obtain ⟨i, c⟩ := r
    simp

/-- C6 (counterexample): a parent cover accepted by the specified
ParentCheck (Conn covered, exactly one component containing all child
vertices) after whose removal no component exceeds the balancedness
limit, so the panic branch is reached. -/
theorem c6_parentcheck_without_oversized :
    parentCheckSpec H6 [p6] [1] [3, 4] = true ∧
    lowStep (getComponents H6 [p6]).1 (balancednessLimit 2 H6) = LowStep.panicNoLow :=
  ⟨rfl, rfl⟩

/-- C7: when Conn is not a subset of Vertices(H), findDecomp panics at
its entry; it neither returns a base-case result (in particular not the
empty sentinel) nor enters the search. -/
theorem c7_conn_guard (K : Int) (H : Graph) (Conn : List Vertex) (lenAE : Nat)
    (h : subsetV Conn H.vertices = false) :
    findDecompPhase K H Conn lenAE = FDPhase.panicConn ∧
    (∀ d : Option Decomp, findDecompPhase K H Conn lenAE ≠ FDPhase.base d) ∧
    findDecompPhase K H Conn lenAE ≠ FDPhase.search := by
  have h1 : findDecompPhase K H Conn lenAE = FDPhase.panicConn := by
    simp [findDecompPhase, h]
  refine ⟨h1, fun d hd => ?_, fun hs => ?_⟩
  · rw [h1] at hd; cases hd
  · rw [h1] at hs; cases hs

/-- Witness for c7_conn_guard: Conn = [1] on the empty graph panics. -/
theorem c7_conn_guard_witness :
    findDecompPhase 1 emptyHG [1] 0 = FDPhase.panicConn :=
  (c7_conn_guard 1 emptyHG [1] 0 rfl).1

/-- C8: SetWidth empties the negative cache and sets the width; the cache
step of FindDecomp only initializes and preserves the entries of the
current epoch; and right after SetWidth no key of a prior epoch is
present. -/
theorem c8_cache_epoch (s : LogKState) (K : Int)
    (entries : List (Edges × Graph)) (k : Edges × Graph) :
    (SetWidth s K).K = K ∧
    (SetWidth s K).cache = some [] ∧
    (FindDecompCacheStep { s with cache := some entries }).cache = some entries ∧
    cacheCheckKey k (SetWidth s K).cache = false := by
  refine ⟨rfl, rfl, rfl, ?_⟩
  simp [SetWidth, cacheReset, cacheCheckKey]

/-- C9 (counterexample): with K = 0 and a bound one-edge graph,
FindDecomp performs no validation and enters the recursive search
instead of rejecting the call. -/
theorem c9_enters_search_at_k_zero :
    FindDecompPhase s9 = FDPhase.search := rfl

/-- C9 (amended): the rejection of K at most 0 happens only in the CLI
front-end, before any solver is constructed; the engine itself runs its
only validation on Conn and otherwise enters the recursive search
whenever no base case fires, regardless of K. -/
theorem c9_rejection_only_in_cli :
    (∀ (parseErr graphMissing : Bool) (w : Int), w ≤ 0 →
      cliAccepts parseErr graphMissing w false 0 = false) ∧
    (∀ s : LogKState,
      baseCaseCheck s.K s.graph.edges.length s.graph.special.length s.graph.edges.length
        = false →
      FindDecompPhase s = FDPhase.search) := by
  constructor
  · intro pe gm w hw
    simp [cliAccepts, hw]
  · intro s hbc
    have hsub : subsetV [] s.graph.vertices = true := rfl
    simp [FindDecompPhase, findDecompPhase, hsub, hbc]

/-- Witness for c9_rejection_only_in_cli: the CLI rejects width 0, while
the engine itself enters the search on the one-edge state with K = 0. -/
theorem c9_rejection_only_in_cli_witness :
    cliAccepts false false 0 false 0 = false ∧ FindDecompPhase s9 = FDPhase.search :=
  ⟨c9_rejection_only_in_cli.1 false false 0 (by decide),
   c9_rejection_only_in_cli.2 s9 rfl⟩

/-- Helper: after a prefix of successful lower results, the first empty
result makes the wait loop continue PARENT at once, with only the
messages up to the failure received, whatever schedule remains. -/
theorem waitLoop_prefix_reject (Conn : List Vertex) (pre : List Decomp) :
    ∀ (n r : Nat) (rest : List WaitMsg), pre.length ≤ n →
    waitLoop Conn (n + 1) (pre.map (fun d => WaitMsg.low (some d)) ++ WaitMsg.low none :: rest) r
      = WaitOutcome.rejected (r + pre.length + 1) := by
  induction pre with
  | nil => intro n r rest _; rfl
  | cons d ds ih =>
    intro n r rest hlen
    cases n with
    | zero => simp at hlen
    | succ n2 =>
      have hstep := ih n2 (r + 1) rest (by simpa using hlen)
      have harith : r + 1 + ds.length + 1 = r + (d :: ds).length + 1 := by
        simp [List.length_cons]; omega
      calc waitLoop Conn (n2 + 1 + 1)
            ((d :: ds).map (fun x => WaitMsg.low (some x)) ++ WaitMsg.low none :: rest) r
          = waitLoop Conn (n2 + 1)
            (ds.map (fun x => WaitMsg.low (some x)) ++ WaitMsg.low none :: rest) (r + 1) := rfl
        _ = WaitOutcome.rejected (r + 1 + ds.length + 1) := hstep
        _ = WaitOutcome.rejected (r + (d :: ds).length + 1) := by rw [harith]

/-- C10 (amended): when a sibling task returns the empty decomposition,
the wait loop continues to the next parent candidate immediately: only
the results up to and including the failure are received, independent of
how many in-flight siblings remain, so the remaining channel sends are
never drained (the siblings are indeed not cancelled, their sends simply
find no receiver). -/
theorem c10_first_failure_exits (Conn : List Vertex) (pre : List Decomp) (n : Nat)
    (rest : List WaitMsg) (hlen : pre.length ≤ n) :
    waitLoop Conn (n + 1)
        (pre.map (fun d => WaitMsg.low (some d)) ++ WaitMsg.low none :: rest) 0
      = WaitOutcome.rejected (pre.length + 1) := by
  have h := waitLoop_prefix_reject Conn pre n 0 rest hlen
  simpa using h

/-- Witness for c10_first_failure_exits: one success then a failure with
one more in-flight sibling; the loop exits after two receives. -/
theorem c10_first_failure_exits_witness :
    waitLoop [] 3
        ([dArb].map (fun d => WaitMsg.low (some d)) ++
          WaitMsg.low none :: [WaitMsg.up (some dArb)]) 0
      = WaitOutcome.rejected 2 :=
  c10_first_failure_exits [] [dArb] 2 [WaitMsg.up (some dArb)] (by decide)

/-- C10 (counterexample): three results are awaited and three sends are
due, yet on a first-arriving empty result the wait loop exits with only
one message received, so the two remaining sends are never drained
before the search moves to the next parent candidate. -/
theorem c10_not_drained :
    awaitedResults [⟨[e62], []⟩, ⟨[e63], []⟩] = 3 ∧
    waitLoop [] 3 [WaitMsg.low none, WaitMsg.low (some dArb), WaitMsg.up (some dArb)] 0
      = WaitOutcome.rejected 1 ∧
    (1 : Nat) < 3 :=
  ⟨rfl, rfl, by decide⟩
